import Mathlib

/-
Verification development for the ntfp compiler front end
(src/compile.rs): tokenizer, recursive-descent parser, semantic
analyzer and code generator, shallowly embedded in Lean.

Conventions of the embedding:
* Source text is a `List Char`; the Rust code indexes the string by
  BYTE offsets, so byte arithmetic is modelled explicitly through
  `charUtf8Size` / `byteLen` / `dropBytes`.
* Rust operations that can panic (slicing a `&str` at a non
  character boundary, `Option::unwrap`) are modelled by the
  distinguished result `LexResult.panic`.
* The regex-alternation tokenizer of the source commits, at each
  position, to the first rule of the fixed priority list that
  matches there (leftmost-first semantics of the regex crate);
  `firstMatch` reproduces that rule order directly.  The `\d` class
  is modelled on its ASCII range, the only digits the development
  ever exercises.
* Recursive loops are given explicit fuel; the driver functions pass
  enough fuel for the loop to run to completion, and theorems about
  symbolic inputs quantify over all sufficiently large fuels.
-/

namespace Ntfp

/-- Token kinds, mirroring enum TokenType of src/compile.rs. -/
inductive TokenType where
  | Let | Print | Method | Fun | Back
  | Identifier | Number | String
  | Plus | Minus | Assign | Semicolon
  | LParen | RParen | LBrace | RBrace
  | Multiply | Divide | Mismatch
deriving DecidableEq, Repr

/-- Rust Debug rendering of a token kind (format {:?}). -/
def debugName : TokenType → String
  | .Let => "Let"
  | .Print => "Print"
  | .Method => "Method"
  | .Fun => "Fun"
  | .Back => "Back"
  | .Identifier => "Identifier"
  | .Number => "Number"
  | .String => "String"
  | .Plus => "Plus"
  | .Minus => "Minus"
  | .Assign => "Assign"
  | .Semicolon => "Semicolon"
  | .LParen => "LParen"
  | .RParen => "RParen"
  | .LBrace => "LBrace"
  | .RBrace => "RBrace"
  | .Multiply => "Multiply"
  | .Divide => "Divide"
  | .Mismatch => "Mismatch"

/-- A lexical token, mirroring struct Token of src/compile.rs
(the line counter and the byte position of the lexeme). -/
structure Token where
  type_ : TokenType
  value : String
  line : Nat
  position : Nat
deriving DecidableEq, Repr

/-- UTF-8 byte width of a character, as Rust char::len_utf8. -/
def charUtf8Size (c : Char) : Nat :=
  if c.toNat < 128 then 1
  else if c.toNat < 2048 then 2
  else if c.toNat < 65536 then 3
  else 4

/-- UTF-8 byte length of a character list, as Rust str::len. -/
def byteLen : List Char → Nat
  | [] => 0
  | c :: rest => charUtf8Size c + byteLen rest

/-- The suffix of the text starting at byte offset n, or none when n
is not on a character boundary (where Rust slicing panics). -/
def dropBytes (cs : List Char) (n : Nat) : Option (List Char) :=
  match n, cs with
  | 0, cs => some cs
  | _ + 1, [] => none
  | n + 1, c :: cs' =>
    if charUtf8Size c ≤ n + 1 then dropBytes cs' (n + 1 - charUtf8Size c) else none

/-- Unicode White_Space, as Rust char::is_whitespace. -/
def rustIsWhitespace (c : Char) : Bool :=
  (9 ≤ c.toNat && c.toNat ≤ 13) || c.toNat == 32 || c.toNat == 133 ||
  c.toNat == 160 || c.toNat == 5760 || (8192 ≤ c.toNat && c.toNat ≤ 8202) ||
  c.toNat == 8232 || c.toNat == 8233 || c.toNat == 8239 ||
  c.toNat == 8287 || c.toNat == 12288

/-- ASCII decimal digit, the regex class [0-9]. -/
def isAsciiDigit (c : Char) : Bool := 48 ≤ c.toNat && c.toNat ≤ 57

/-- First character of the IDENTIFIER rule, the regex class [a-zA-Z_]. -/
def isIdentStart (c : Char) : Bool :=
  (65 ≤ c.toNat && c.toNat ≤ 90) || (97 ≤ c.toNat && c.toNat ≤ 122) || c.toNat == 95

/-- Continuing character of the IDENTIFIER rule, the regex class [a-zA-Z0-9_]. -/
def isIdentChar (c : Char) : Bool := isIdentStart c || isAsciiDigit c

/-- Characters of a string literal before the next quote, or none when
the quote is unterminated (the STRING rule then fails to match). -/
def strContent : List Char → Option (List Char)
  | [] => none
  | c :: rest => if c = '"' then some [] else (strContent rest).map (fun l => c :: l)

/-- The token rule committed to at the current position: the rules of
token_specs are tried in their fixed priority order and the first
whose pattern matches at the position wins, reproducing the
leftmost-first alternation semantics of the lexer's single regex. -/
def firstMatch : List Char → TokenType × List Char
  | [] => (.Mismatch, [])
  | c :: rest =>
    if ("let".toList).isPrefixOf (c :: rest) then (.Let, "let".toList)
    else if ("print".toList).isPrefixOf (c :: rest) then (.Print, "print".toList)
    else if ("method".toList).isPrefixOf (c :: rest) then (.Method, "method".toList)
    else if ("fun".toList).isPrefixOf (c :: rest) then (.Fun, "fun".toList)
    else if ("back".toList).isPrefixOf (c :: rest) then (.Back, "back".toList)
    else if isIdentStart c then (.Identifier, c :: rest.takeWhile isIdentChar)
    else if isAsciiDigit c then (.Number, c :: rest.takeWhile isAsciiDigit)
    else if c = '"' then
      match strContent rest with
      | some content => (.String, '"' :: (content ++ ['"']))
      | none => (.Mismatch, [c])
    else if c = '+' then (.Plus, [c])
    else if c = '-' then (.Minus, [c])
    else if c = '=' then (.Assign, [c])
    else if c = ';' then (.Semicolon, [c])
    else if c = '(' then (.LParen, [c])
    else if c = ')' then (.RParen, [c])
    else if c = '{' then (.LBrace, [c])
    else if c = '}' then (.RBrace, [c])
    else if c = '*' then (.Multiply, [c])
    else if c = '/' then (.Divide, [c])
    else (.Mismatch, [c])

/-- Result of the tokenizer: a token list, a lexical error message, or
a Rust panic (out-of-boundary slice or failed unwrap). -/
inductive LexResult where
  | ok : List Token → LexResult
  | err : String → LexResult
  | panic : LexResult
deriving DecidableEq, Repr

/-- The scanning loop of fn lexer (src/compile.rs lines 69-110):
pos is a byte offset, line the 1-based line counter.  Whitespace is
skipped one BYTE at a time while the line counter inspects the CHAR
at index pos, both as in the source.  The fuel only bounds the
number of iterations; the driver supplies byteLen cs + 1, which is
enough because every iteration advances pos by at least one byte. -/
def lexLoop (cs : List Char) : Nat → Nat → Nat → List Token → LexResult
  | 0, _, _, _ => .panic
  | fuel + 1, pos, line, acc =>
    if pos < byteLen cs then
      match dropBytes cs pos with
      | none => .panic
      | some [] => .err ("Unexpected character at position " ++ toString pos)
      | some (c :: rest) =>
        if rustIsWhitespace c then
          match cs[pos]? with
          | none => .panic
          | some c2 => lexLoop cs fuel (pos + 1) (if c2 = '\n' then line + 1 else line) acc
        else
          match firstMatch (c :: rest) with
          | (t, lexeme) =>
            if t = TokenType.Mismatch then
              .err ("Unexpected character '" ++ String.mk lexeme ++ "' at position " ++
                toString pos)
            else
              lexLoop cs fuel (pos + byteLen lexeme) line
                (acc ++ [⟨t, String.mk lexeme, line, pos⟩])
    else .ok acc

/-- fn lexer of src/compile.rs: tokenize from byte offset 0, line 1. -/
def lexer (cs : List Char) : LexResult := lexLoop cs (byteLen cs + 1) 0 1 []

/-- UTF-8 encoding of one character (byte values). -/
def utf8Encode (c : Char) : List Nat :=
  let v := c.toNat
  if v < 128 then [v]
  else if v < 2048 then [192 + v / 64, 128 + v % 64]
  else if v < 65536 then [224 + v / 4096, 128 + (v / 64) % 64, 128 + v % 64]
  else [240 + v / 262144, 128 + (v / 4096) % 64, 128 + (v / 64) % 64, 128 + v % 64]

/-- UTF-8 encoding of the whole text. -/
def utf8Bytes (cs : List Char) : List Nat := (cs.map utf8Encode).flatten

/-- Number of newline characters strictly before byte offset off: the
count of newline bytes among the first off bytes of the encoding
(a newline is one byte and never part of a multi-byte character). -/
def newlinesBefore (cs : List Char) (off : Nat) : Nat :=
  ((utf8Bytes cs).take off).count 10

/-- The number of tokens of a successful tokenizer run. -/
def tokenCount : LexResult → Option Nat
  | .ok ts => some ts.length
  | _ => none

/-- The source text of the end-to-end scenario of spec.md section 8. -/
def c4Source : List Char := "fun main() \x7b let x = \"5\"; print(x); \x7d".toList

/-- The sixteen tokens the tokenizer produces for that source. -/
def c4Tokens : List Token :=
  [⟨.Fun, "fun", 1, 0⟩, ⟨.Identifier, "main", 1, 4⟩, ⟨.LParen, "(", 1, 8⟩,
   ⟨.RParen, ")", 1, 9⟩, ⟨.LBrace, "\x7b", 1, 11⟩, ⟨.Let, "let", 1, 13⟩,
   ⟨.Identifier, "x", 1, 17⟩, ⟨.Assign, "=", 1, 19⟩, ⟨.String, "\"5\"", 1, 21⟩,
   ⟨.Semicolon, ";", 1, 24⟩, ⟨.Print, "print", 1, 26⟩, ⟨.LParen, "(", 1, 31⟩,
   ⟨.Identifier, "x", 1, 32⟩, ⟨.RParen, ")", 1, 33⟩, ⟨.Semicolon, ";", 1, 34⟩,
   ⟨.RBrace, "\x7d", 1, 36⟩]

/-- C4 counterexample: the scenario source tokenizes to 16 tokens, not to
the 11 the claim states (the spec's own token enumeration lists 16). -/
theorem C4_counterexample :
    tokenCount (lexer c4Source) = some 16 ∧ (16 : Nat) ≠ 11 := by
  decide

/-- C4 (amended): tokenizing the scenario source succeeds and produces
exactly 16 tokens, namely the ones of the spec's enumeration. -/
theorem C4_sixteen_tokens :
    lexer c4Source = .ok c4Tokens ∧ c4Tokens.length = 16 := by
  decide

/-- C2 counterexample: `letlet` is a keyword spelling followed by the
identifier characters `let`, yet the second token is the keyword token
`Let` and not an identifier token for the remainder. -/
theorem C2_counterexample :
    lexer ("letlet".toList) = .ok [⟨.Let, "let", 1, 0⟩, ⟨.Let, "let", 1, 3⟩] ∧
      TokenType.Let ≠ TokenType.Identifier := by
  decide

/-- Source with a multi-byte character inside a string literal followed
by two newlines: bytes 0-3 hold the literal, bytes 4 and 5 newlines,
byte 6 the identifier x. -/
def c6Source : List Char := "\"é\"\n\nx".toList

/-- C6: the lexer reads the char at CHAR index position to update the
line counter although position is a BYTE offset, so after a multi-byte
character the second newline is missed: the token at byte offset 6 is
recorded on line 2 although 2 newlines precede it (the claim requires
its line minus one, i.e. 1, to equal that count). -/
theorem C6_line_tracking_bug :
    lexer c6Source = .ok [⟨.String, "\"é\"", 1, 0⟩, ⟨.Identifier, "x", 2, 6⟩] ∧
      newlinesBefore c6Source 6 = 2 ∧ (2 : Nat) ≠ 2 - 1 := by
  decide

/-- A no-break space (U+00A0, two bytes in UTF-8) followed by x. -/
def c8Source : List Char := [Char.ofNat 160, 'x']

/-- C8: the tokenizer is not total — skipping the two-byte whitespace
character advances the byte cursor by one, landing inside the character,
and the next slice of the source panics instead of returning a token
sequence or a lexical error. -/
theorem C8_whitespace_panic : lexer c8Source = .panic := by
  decide

theorem charUtf8Size_pos (c : Char) : 1 ≤ charUtf8Size c := by
  unfold charUtf8Size
  repeat' split
  all_goals omega

theorem identChar_utf8Size (c : Char) (h : isIdentChar c = true) : charUtf8Size c = 1 := by
  unfold isIdentChar isIdentStart isAsciiDigit at h
  simp only [Bool.or_eq_true, Bool.and_eq_true, decide_eq_true_eq, Nat.beq_eq_true_eq] at h
  have hlt : c.toNat < 128 := by omega
  simp [charUtf8Size, hlt]

theorem identChar_not_ws (c : Char) (h : isIdentChar c = true) :
    rustIsWhitespace c = false := by
  by_contra hws
  rw [Bool.not_eq_false] at hws
  unfold isIdentChar isIdentStart isAsciiDigit at h
  unfold rustIsWhitespace at hws
  simp only [Bool.or_eq_true, Bool.and_eq_true, decide_eq_true_eq, beq_iff_eq] at h hws
  omega

theorem byteLen_append (a b : List Char) : byteLen (a ++ b) = byteLen a + byteLen b := by
  induction a with
  | nil => simp [byteLen]
  | cons c a ih => simp [byteLen, ih]; omega

theorem byteLen_pos (c : Char) (cs : List Char) : 1 ≤ byteLen (c :: cs) := by
  have := charUtf8Size_pos c
  simp [byteLen]; omega

theorem dropBytes_cons_add (c : Char) (cs : List Char) (n : Nat) :
    dropBytes (c :: cs) (charUtf8Size c + n) = dropBytes cs n := by
  have hs := charUtf8Size_pos c
  rcases hm : charUtf8Size c + n with _ | m
  · omega
  · show (if charUtf8Size c ≤ m + 1 then dropBytes cs (m + 1 - charUtf8Size c)
      else none) = dropBytes cs n
    rw [if_pos (by omega)]
    congr 1
    omega

theorem dropBytes_byteLen_append (pre s : List Char) :
    dropBytes (pre ++ s) (byteLen pre) = some s := by
  induction pre with
  | nil => simp [byteLen, dropBytes]
  | cons c pre ih =>
    show dropBytes (c :: (pre ++ s)) (charUtf8Size c + byteLen pre) = some s
    rw [dropBytes_cons_add, ih]

theorem dropBytes_add (cs : List Char) :
    ∀ (a : Nat) (s : List Char), dropBytes cs a = some s →
      ∀ b, dropBytes cs (a + b) = dropBytes s b := by
  induction cs with
  | nil =>
    intro a s h b
    cases a with
    | zero => cases h; rw [Nat.zero_add]
    | succ n => exact absurd h (by simp [dropBytes])
  | cons c cs ih =>
    intro a s h b
    cases a with
    | zero => cases h; rw [Nat.zero_add]
    | succ n =>
      have h' := h
      unfold dropBytes at h'
      split at h' <;> rename_i hle
      · have he : n + 1 + b = (n + b) + 1 := by omega
        rw [he]
        show (if charUtf8Size c ≤ n + b + 1 then
          dropBytes cs (n + b + 1 - charUtf8Size c) else none) = dropBytes s b
        rw [if_pos (by omega)]
        have he2 : n + b + 1 - charUtf8Size c = (n + 1 - charUtf8Size c) + b := by omega
        rw [he2]
        exact ih _ _ h' b
      · exact absurd h' (by simp)

theorem dropBytes_some_byteLen (cs : List Char) :
    ∀ (pos : Nat) (s : List Char), dropBytes cs pos = some s →
      byteLen cs = pos + byteLen s := by
  induction cs with
  | nil =>
    intro pos s h
    cases pos with
    | zero => cases h; rfl
    | succ n => exact absurd h (by simp [dropBytes])
  | cons c cs ih =>
    intro pos s h
    cases pos with
    | zero => cases h; omega
    | succ n =>
      unfold dropBytes at h
      split at h <;> rename_i hle
      · have := ih _ _ h
        simp only [byteLen]
        omega
      · exact absurd h (by simp)

theorem keyword_chars_ident :
    ∀ w ∈ [['l','e','t'], ['p','r','i','n','t'], ['m','e','t','h','o','d'],
      ['f','u','n'], ['b','a','c','k']], ∀ a ∈ w, isIdentChar a = true := by
  decide

/-- On input consisting only of identifier characters, the committed
rule is never the catch-all: the matched lexeme is a nonempty prefix of
identifier characters and the remainder is again identifier characters. -/
theorem firstMatch_ident (c : Char) (rest : List Char)
    (hall : ∀ a ∈ c :: rest, isIdentChar a = true) :
    ∃ t lex r, firstMatch (c :: rest) = (t, lex) ∧ t ≠ TokenType.Mismatch ∧ lex ≠ [] ∧
      c :: rest = lex ++ r ∧ (∀ a ∈ r, isIdentChar a = true) := by
  have hc := hall c (List.mem_cons_self c rest)
  by_cases h1 : ("let".toList).isPrefixOf (c :: rest) = true
  · obtain ⟨r, hr⟩ := List.isPrefixOf_iff_prefix.mp h1
    exact ⟨.Let, "let".toList, r, by simp only [firstMatch]; rw [if_pos h1], by decide, by decide, hr.symm,
      fun a ha => hall a (hr ▸ List.mem_append_right _ ha)⟩
  by_cases h2 : ("print".toList).isPrefixOf (c :: rest) = true
  · obtain ⟨r, hr⟩ := List.isPrefixOf_iff_prefix.mp h2
    exact ⟨.Print, "print".toList, r, by simp only [firstMatch]; rw [if_neg h1, if_pos h2], by decide, by decide,
      hr.symm, fun a ha => hall a (hr ▸ List.mem_append_right _ ha)⟩
  by_cases h3 : ("method".toList).isPrefixOf (c :: rest) = true
  · obtain ⟨r, hr⟩ := List.isPrefixOf_iff_prefix.mp h3
    exact ⟨.Method, "method".toList, r, by simp only [firstMatch]; rw [if_neg h1, if_neg h2, if_pos h3], by decide, by decide,
      hr.symm, fun a ha => hall a (hr ▸ List.mem_append_right _ ha)⟩
  by_cases h4 : ("fun".toList).isPrefixOf (c :: rest) = true
  · obtain ⟨r, hr⟩ := List.isPrefixOf_iff_prefix.mp h4
    exact ⟨.Fun, "fun".toList, r, by simp only [firstMatch]; rw [if_neg h1, if_neg h2, if_neg h3, if_pos h4], by decide, by decide,
      hr.symm, fun a ha => hall a (hr ▸ List.mem_append_right _ ha)⟩
  by_cases h5 : ("back".toList).isPrefixOf (c :: rest) = true
  · obtain ⟨r, hr⟩ := List.isPrefixOf_iff_prefix.mp h5
    exact ⟨.Back, "back".toList, r, by simp only [firstMatch]; rw [if_neg h1, if_neg h2, if_neg h3, if_neg h4, if_pos h5], by decide,
      by decide, hr.symm, fun a ha => hall a (hr ▸ List.mem_append_right _ ha)⟩
  by_cases h6 : isIdentStart c = true
  · have htw : rest.takeWhile isIdentChar = rest :=
      List.takeWhile_eq_self_iff.mpr (fun a ha => hall a (List.mem_cons_of_mem c ha))
    exact ⟨.Identifier, c :: rest.takeWhile isIdentChar, [],
      by simp only [firstMatch]; rw [if_neg h1, if_neg h2, if_neg h3, if_neg h4, if_neg h5, if_pos h6], by decide, by simp,
      by simp [htw], by simp⟩
  by_cases h7 : isAsciiDigit c = true
  · refine ⟨.Number, c :: rest.takeWhile isAsciiDigit, rest.dropWhile isAsciiDigit,
      by simp only [firstMatch]; rw [if_neg h1, if_neg h2, if_neg h3, if_neg h4, if_neg h5, if_neg h6, if_pos h7], by decide, by simp, ?_, ?_⟩
    · simp [List.takeWhile_append_dropWhile]
    · intro a ha
      refine hall a (List.mem_cons_of_mem c ?_)
      have hsplit : rest.takeWhile isAsciiDigit ++ rest.dropWhile isAsciiDigit = rest :=
        List.takeWhile_append_dropWhile isAsciiDigit rest
      exact hsplit ▸ List.mem_append_right _ ha
  · exfalso
    unfold isIdentChar at hc
    simp [h6, h7] at hc

/-- Tokenizing from a position whose suffix is a nonempty run of
identifier characters succeeds and emits at least one further token. -/
theorem lexLoop_ident_suffix (cs : List Char) :
    ∀ (fuel : Nat) (s : List Char) (pos line : Nat) (acc : List Token),
      s ≠ [] → (∀ a ∈ s, isIdentChar a = true) →
      dropBytes cs pos = some s → byteLen s + 1 ≤ fuel →
      ∃ t ts, lexLoop cs fuel pos line acc = .ok (acc ++ t :: ts) := by
  intro fuel
  induction fuel with
  | zero =>
    intro s pos line acc hne _ _ hfuel
    rcases s with _ | ⟨c, s'⟩
    · exact absurd rfl hne
    · have := byteLen_pos c s'; omega
  | succ fuel ih =>
    intro s pos line acc hne hall hdrop hfuel
    rcases s with _ | ⟨c, rest⟩
    · exact absurd rfl hne
    have hcs : byteLen cs = pos + byteLen (c :: rest) := dropBytes_some_byteLen cs pos _ hdrop
    have hpos : pos < byteLen cs := by
      have := byteLen_pos c rest; omega
    have hws : rustIsWhitespace c = false :=
      identChar_not_ws c (hall c (List.mem_cons_self c rest))
    obtain ⟨t, lex, r, hfm, hmis, hlexne, hsplit, hr⟩ := firstMatch_ident c rest hall
    have hlexall : ∀ a ∈ lex, isIdentChar a = true := by
      intro a ha
      exact hall a (hsplit ▸ List.mem_append_left _ ha)
    have hlexbyte : 1 ≤ byteLen lex := by
      rcases lex with _ | ⟨d, lex'⟩
      · exact absurd rfl hlexne
      · exact byteLen_pos d lex'
    have hsplitlen : byteLen (c :: rest) = byteLen lex + byteLen r := by
      rw [hsplit, byteLen_append]
    have hstep : lexLoop cs (fuel + 1) pos line acc =
        lexLoop cs fuel (pos + byteLen lex) line
          (acc ++ [⟨t, String.mk lex, line, pos⟩]) := by
      simp only [lexLoop]
      rw [if_pos hpos, hdrop]
      simp [hws, hfm, hmis]
    rw [hstep]
    rcases r with _ | ⟨d, r'⟩
    · -- the match consumed the whole suffix: the loop stops next round
      have hlex_eq : lex = c :: rest := by simpa using hsplit.symm
      have hend : pos + byteLen lex = byteLen cs := by
        rw [hlex_eq]; omega
      rcases fuel with _ | fuel'
      · omega
      · refine ⟨⟨t, String.mk lex, line, pos⟩, [], ?_⟩
        simp only [lexLoop]
        rw [if_neg (by omega)]
    · -- a nonempty remainder: recurse
      have hdrop' : dropBytes cs (pos + byteLen lex) = some (d :: r') := by
        rw [dropBytes_add cs pos (c :: rest) hdrop (byteLen lex), hsplit,
          dropBytes_byteLen_append]
      have hfuel' : byteLen (d :: r') + 1 ≤ fuel := by omega
      obtain ⟨t2, ts2, hres⟩ := ih (d :: r') (pos + byteLen lex) line
        (acc ++ [⟨t, String.mk lex, line, pos⟩]) (by simp) hr hdrop' hfuel'
      exact ⟨⟨t, String.mk lex, line, pos⟩, t2 :: ts2, by rw [hres]; simp⟩

/-- The first loop iteration on keyword-headed input commits to the
keyword rule and hands the identifier-character remainder to the rest
of the run. -/
theorem lexer_keyword_step (k : TokenType) (w s : List Char)
    (hfm : firstMatch (w ++ s) = (k, w))
    (hwid : ∀ a ∈ w, isIdentChar a = true)
    (hwne : w ≠ [])
    (hmis : k ≠ TokenType.Mismatch)
    (hne : s ≠ []) (hall : ∀ a ∈ s, isIdentChar a = true) :
    ∃ t2 rest, lexer (w ++ s) = .ok (⟨k, String.mk w, 1, 0⟩ :: t2 :: rest) := by
  rcases hw : w with _ | ⟨w0, w'⟩
  · exact absurd hw hwne
  subst hw
  have hslen : 1 ≤ byteLen s := by
    rcases s with _ | ⟨c, s'⟩
    · exact absurd rfl hne
    · exact byteLen_pos c s'
  have hwlen : 1 ≤ byteLen (w0 :: w') := byteLen_pos w0 w'
  have htot : byteLen ((w0 :: w') ++ s) = byteLen (w0 :: w') + byteLen s := byteLen_append _ _
  have hws0 : rustIsWhitespace w0 = false :=
    identChar_not_ws w0 (hwid w0 (List.mem_cons_self w0 w'))
  show ∃ t2 rest,
    lexLoop ((w0 :: w') ++ s) (byteLen ((w0 :: w') ++ s) + 1) 0 1 [] =
      .ok (⟨k, String.mk (w0 :: w'), 1, 0⟩ :: t2 :: rest)
  have hdrop0 : dropBytes ((w0 :: w') ++ s) 0 = some (w0 :: (w' ++ s)) := rfl
  have hfm' : firstMatch (w0 :: (w' ++ s)) = (k, w0 :: w') := hfm
  have hstep :
      lexLoop ((w0 :: w') ++ s) (byteLen ((w0 :: w') ++ s) + 1) 0 1 [] =
        lexLoop ((w0 :: w') ++ s) (byteLen ((w0 :: w') ++ s)) (0 + byteLen (w0 :: w')) 1
          [⟨k, String.mk (w0 :: w'), 1, 0⟩] := by
    simp only [lexLoop]
    rw [if_pos (by omega), hdrop0]
    simp [hws0, hfm', hmis]
  rw [hstep]
  have hdrop : dropBytes ((w0 :: w') ++ s) (byteLen (w0 :: w')) = some s :=
    dropBytes_byteLen_append _ _
  obtain ⟨t2, ts2, hres⟩ := lexLoop_ident_suffix ((w0 :: w') ++ s)
    (byteLen ((w0 :: w') ++ s)) s (byteLen (w0 :: w')) 1
    [⟨k, String.mk (w0 :: w'), 1, 0⟩] hne hall hdrop (by omega)
  rw [Nat.zero_add]
  rw [hres]
  exact ⟨t2, ts2, by simp⟩

/-- C2 (amended): a keyword spelling immediately followed by a nonempty
run of identifier characters never tokenizes to a single identifier
token: the first token is the keyword's own token and at least one
further token follows (the remainder is an identifier token in general,
but is itself re-tokenized and may begin with a keyword or number
token, e.g. letlet or let5). -/
theorem C2_keyword_prefix_split :
    ∀ (k : TokenType) (w : List Char),
      (k, w) ∈ [(TokenType.Let, ['l','e','t']), (TokenType.Print, ['p','r','i','n','t']),
        (TokenType.Method, ['m','e','t','h','o','d']), (TokenType.Fun, ['f','u','n']),
        (TokenType.Back, ['b','a','c','k'])] →
      ∀ s : List Char, s ≠ [] → (∀ a ∈ s, isIdentChar a = true) →
      ∃ t2 rest, lexer (w ++ s) = .ok (⟨k, String.mk w, 1, 0⟩ :: t2 :: rest) := by
  intro k w hmem s hne hall
  fin_cases hmem <;>
    exact lexer_keyword_step _ _ s (by simp [firstMatch, List.isPrefixOf])
      (by decide) (by decide) (by decide) hne hall

/-- Witness for C2: the split of the source text leta. -/
theorem C2_keyword_prefix_split_witness :
    ∃ t2 rest,
      lexer (['l','e','t'] ++ ['a']) =
        .ok (⟨TokenType.Let, String.mk ['l','e','t'], 1, 0⟩ :: t2 :: rest) :=
  C2_keyword_prefix_split TokenType.Let ['l','e','t'] (by simp) ['a'] (by simp) (by decide)

/-- AST nodes, mirroring enum ASTNode of src/compile.rs.  The method's
HashMap of locals is carried as an association list whose most recent
insertion shadows older ones, and boxed children are direct children. -/
inductive ASTNode where
  | Let (name : String) (value : ASTNode)
  | Print (value : ASTNode)
  | Method (name : String) (body : List ASTNode)
      (local_symbol_table : List (String × Int)) (return_value : Option String)
  | Fun (name : String) (body : List ASTNode)
  | Back (value : String)
  | FunctionCall (name : String) (args : List ASTNode)
  | Identifier (name : String)
  | Number (value : String)
  | String (value : String)
  | Assign (name : String) (value : ASTNode)
deriving Repr

/-- Parser state: the token vector and the cursor (struct Parser). -/
structure PState where
  tokens : List Token
  pos : Nat
deriving Repr, DecidableEq

/-- Parser::current_token. -/
def current_token (p : PState) : Option Token := p.tokens[p.pos]?

/-- Parser::eat: advance over a token of the expected kind. -/
def eat (p : PState) (expected : TokenType) : Except String PState :=
  match current_token p with
  | some tok =>
    if tok.type_ = expected then .ok { p with pos := p.pos + 1 }
    else .error ("Expected " ++ debugName expected ++ ", got " ++ debugName tok.type_)
  | none => .error ("Expected " ++ debugName expected ++ ", got EOF")

mutual

/-- Parser::parse_expression. -/
def parse_expression : Nat → PState → Except String (ASTNode × PState)
  | 0, _ => .error "parser recursion limit"
  | fuel + 1, p =>
    match current_token p with
    | none => .error "Unexpected EOF in expression"
    | some tok =>
      match tok.type_ with
      | .Identifier =>
        match eat p .Identifier with
        | .error e => .error e
        | .ok p1 =>
          match current_token p1 with
          | some nt =>
            if nt.type_ = TokenType.LParen then parse_function_call fuel tok.value p1
            else .ok (.Identifier tok.value, p1)
          | none => .ok (.Identifier tok.value, p1)
      | .Number =>
        match eat p .Number with
        | .error e => .error e
        | .ok p1 => .ok (.Number tok.value, p1)
      | .String =>
        match eat p .String with
        | .error e => .error e
        | .ok p1 => .ok (.String tok.value, p1)
      | t => .error ("Unexpected token " ++ debugName t ++ " in expression")

/-- The argument loop inside Parser::parse_function_call
(src/compile.rs lines 281-301). -/
def parse_call_args : Nat → List ASTNode → PState → Except String (List ASTNode × PState)
  | 0, _, _ => .error "parser recursion limit"
  | fuel + 1, args, p =>
    match current_token p with
    | none => .ok (args, p)
    | some tok =>
      if tok.type_ = TokenType.RParen then .ok (args, p)
      else if tok.type_ = TokenType.Semicolon then
        match eat p .Semicolon with
        | .error e => .error e
        | .ok p1 => parse_call_args fuel args p1
      else
        match parse_expression fuel p with
        | .error e => .error e
        | .ok (arg, p1) =>
          match current_token p1 with
          | some nt =>
            if nt.type_ = TokenType.Semicolon then
              match eat p1 .Semicolon with
              | .error e => .error e
              | .ok p2 => parse_call_args fuel (args ++ [arg]) p2
            else if nt.type_ ≠ TokenType.RParen then
              match eat p1 .Plus with
              | .error e => .error e
              | .ok p2 => parse_call_args fuel (args ++ [arg]) p2
            else parse_call_args fuel (args ++ [arg]) p1
          | none => parse_call_args fuel (args ++ [arg]) p1

/-- Parser::parse_function_call. -/
def parse_function_call : Nat → String → PState → Except String (ASTNode × PState)
  | 0, _, _ => .error "parser recursion limit"
  | fuel + 1, func_name, p =>
    match eat p .LParen with
    | .error e => .error e
    | .ok p1 =>
      match parse_call_args fuel [] p1 with
      | .error e => .error e
      | .ok (args, p2) =>
        match eat p2 .RParen with
        | .error e => .error e
        | .ok p3 => .ok (.FunctionCall func_name args, p3)

/-- Parser::parse_let. -/
def parse_let : Nat → PState → Except String (ASTNode × PState)
  | 0, _ => .error "parser recursion limit"
  | fuel + 1, p =>
    match eat p .Let with
    | .error e => .error e
    | .ok p1 =>
      match current_token p1 with
      | none => .error "Expected identifier after let"
      | some ident_token =>
        if ident_token.type_ ≠ TokenType.Identifier then
          .error "Expected identifier after let"
        else
          match eat p1 .Identifier with
          | .error e => .error e
          | .ok p2 =>
            match eat p2 .Assign with
            | .error e => .error e
            | .ok p3 =>
              match parse_expression fuel p3 with
              | .error e => .error e
              | .ok (value, p4) =>
                match eat p4 .Semicolon with
                | .error e => .error e
                | .ok p5 => .ok (.Let ident_token.value value, p5)

/-- Parser::parse_print. -/
def parse_print : Nat → PState → Except String (ASTNode × PState)
  | 0, _ => .error "parser recursion limit"
  | fuel + 1, p =>
    match eat p .Print with
    | .error e => .error e
    | .ok p1 =>
      match eat p1 .LParen with
      | .error e => .error e
      | .ok p2 =>
        match parse_expression fuel p2 with
        | .error e => .error e
        | .ok (expr, p3) =>
          match eat p3 .RParen with
          | .error e => .error e
          | .ok p4 =>
            match eat p4 .Semicolon with
            | .error e => .error e
            | .ok p5 => .ok (.Print expr, p5)

/-- Parser::parse_back. -/
def parse_back : Nat → PState → Except String (ASTNode × PState)
  | 0, _ => .error "parser recursion limit"
  | fuel + 1, p =>
    match eat p .Back with
    | .error e => .error e
    | .ok p1 =>
      match parse_expression fuel p1 with
      | .error e => .error e
      | .ok (expr, p2) =>
        match eat p2 .Semicolon with
        | .error e => .error e
        | .ok p3 =>
          match expr with
          | .Identifier name => .ok (.Back name, p3)
          | .Number value => .ok (.Back value, p3)
          | _ => .error "Invalid expression in back statement"

/-- The statement loop shared verbatim by Parser::parse_method
(lines 320-332) and Parser::parse_fun (lines 385-397): gather
statements until the closing brace, skipping stray semicolons. -/
def parse_stmts : Nat → List ASTNode → PState → Except String (List ASTNode × PState)
  | 0, _, _ => .error "parser recursion limit"
  | fuel + 1, body, p =>
    match current_token p with
    | none => .ok (body, p)
    | some tok =>
      if tok.type_ = TokenType.RBrace then .ok (body, p)
      else if tok.type_ = TokenType.Semicolon then
        match eat p .Semicolon with
        | .error e => .error e
        | .ok p1 => parse_stmts fuel body p1
      else
        match parse_statement fuel p with
        | .error e => .error e
        | .ok (stmt, p1) => parse_stmts fuel (body ++ [stmt]) p1

/-- Parser::parse_method: note there is NO optional-parentheses step
between the name and the opening brace. -/
def parse_method : Nat → PState → Except String (ASTNode × PState)
  | 0, _ => .error "parser recursion limit"
  | fuel + 1, p =>
    match eat p .Method with
    | .error e => .error e
    | .ok p1 =>
      match current_token p1 with
      | none => .error "Expected method name"
      | some ident_token =>
        if ident_token.type_ ≠ TokenType.Identifier then
          .error "Expected method name"
        else
          match eat p1 .Identifier with
          | .error e => .error e
          | .ok p2 =>
            match eat p2 .LBrace with
            | .error e => .error e
            | .ok p3 =>
              match parse_stmts fuel [] p3 with
              | .error e => .error e
              | .ok (body, p4) =>
                match eat p4 .RBrace with
                | .error e => .error e
                | .ok p5 =>
                  match current_token p5 with
                  | some tok =>
                    if tok.type_ = TokenType.Semicolon then
                      match eat p5 .Semicolon with
                      | .error e => .error e
                      | .ok p6 => .ok (.Method ident_token.value body [] none, p6)
                    else .ok (.Method ident_token.value body [] none, p5)
                  | none => .ok (.Method ident_token.value body [] none, p5)

/-- Parser::parse_fun: the optional empty parameter parentheses are
accepted here (src/compile.rs lines 374-380). -/
def parse_fun : Nat → PState → Except String (ASTNode × PState)
  | 0, _ => .error "parser recursion limit"
  | fuel + 1, p =>
    match eat p .Fun with
    | .error e => .error e
    | .ok p1 =>
      match current_token p1 with
      | none => .error "Expected function name"
      | some ident_token =>
        if ident_token.type_ ≠ TokenType.Identifier then
          .error "Expected function name"
        else
          match eat p1 .Identifier with
          | .error e => .error e
          | .ok p2 =>
            match
              (match current_token p2 with
              | some tok =>
                if tok.type_ = TokenType.LParen then
                  match eat p2 .LParen with
                  | .error e => Except.error e
                  | .ok pa =>
                    match eat pa .RParen with
                    | .error e => Except.error e
                    | .ok pb => Except.ok pb
                else Except.ok p2
              | none => Except.ok p2 : Except String PState)
            with
            | .error e => .error e
            | .ok p3 =>
              match eat p3 .LBrace with
              | .error e => .error e
              | .ok p4 =>
                match parse_stmts fuel [] p4 with
                | .error e => .error e
                | .ok (body, p5) =>
                  match eat p5 .RBrace with
                  | .error e => .error e
                  | .ok p6 =>
                    match current_token p6 with
                    | some tok =>
                      if tok.type_ = TokenType.Semicolon then
                        match eat p6 .Semicolon with
                        | .error e => .error e
                        | .ok p7 => .ok (.Fun ident_token.value body, p7)
                      else .ok (.Fun ident_token.value body, p6)
                    | none => .ok (.Fun ident_token.value body, p6)

/-- Parser::parse_statement. -/
def parse_statement : Nat → PState → Except String (ASTNode × PState)
  | 0, _ => .error "parser recursion limit"
  | fuel + 1, p =>
    match current_token p with
    | none => .error "Unexpected EOF"
    | some tok =>
      match tok.type_ with
      | .Let => parse_let fuel p
      | .Print => parse_print fuel p
      | .Method => parse_method fuel p
      | .Fun => parse_fun fuel p
      | .Back => parse_back fuel p
      | .Identifier =>
        match p.tokens[p.pos + 1]? with
        | some t2 =>
          if t2.type_ = TokenType.Assign then
            match eat p .Identifier with
            | .error e => .error e
            | .ok p1 =>
              match eat p1 .Assign with
              | .error e => .error e
              | .ok p2 =>
                match parse_expression fuel p2 with
                | .error e => .error e
                | .ok (value, p3) =>
                  match eat p3 .Semicolon with
                  | .error e => .error e
                  | .ok p4 => .ok (.Assign tok.value value, p4)
          else
            -- the call-statement path does not consume the identifier
            -- before demanding a parenthesis, as in the source
            match parse_function_call fuel tok.value p with
            | .error e => .error e
            | .ok (func_call, p1) =>
              match eat p1 .Semicolon with
              | .error e => .error e
              | .ok p2 => .ok (func_call, p2)
        | none =>
          match parse_function_call fuel tok.value p with
          | .error e => .error e
          | .ok (func_call, p1) =>
            match eat p1 .Semicolon with
            | .error e => .error e
            | .ok p2 => .ok (func_call, p2)
      | t => .error ("Unexpected token " ++ debugName t)

end

/-- Parser::parse: the top-level statement loop. -/
def parse : Nat → PState → List ASTNode → Except String (List ASTNode)
  | 0, _, _ => .error "parser recursion limit"
  | fuel + 1, p, acc =>
    if p.pos < p.tokens.length then
      match parse_statement fuel p with
      | .error e => .error e
      | .ok (stmt, p1) => parse fuel p1 (acc ++ [stmt])
    else .ok acc

/-- C3 counterexample: method foo() { } is REJECTED by the parser —
after the method name it demands the opening brace at once and
reports the parenthesis as unexpected. -/
theorem C3_counterexample :
    parse_method 10 ⟨[⟨.Method, "method", 1, 0⟩, ⟨.Identifier, "foo", 1, 7⟩,
      ⟨.LParen, "(", 1, 10⟩, ⟨.RParen, ")", 1, 11⟩, ⟨.LBrace, "\x7b", 1, 13⟩,
      ⟨.RBrace, "\x7d", 1, 14⟩], 0⟩ = .error "Expected LBrace, got LParen" := by
  rfl

/-- The six tokens of fun NAME ( ) { }. -/
def funToks (name : String) : List Token :=
  [⟨.Fun, "fun", 1, 0⟩, ⟨.Identifier, name, 1, 4⟩, ⟨.LParen, "(", 1, 8⟩,
   ⟨.RParen, ")", 1, 9⟩, ⟨.LBrace, "\x7b", 1, 11⟩, ⟨.RBrace, "\x7d", 1, 13⟩]

/-- C3 (amended): the optional empty parameter parentheses are accepted
for fun only; for method, a parenthesis after the declared name is
rejected with an expected-LBrace error, whatever follows. -/
theorem C3_method_rejects_parens :
    (∀ (fuel : Nat) (t1 t2 t3 : Token) (rest : List Token),
      t1.type_ = TokenType.Method → t2.type_ = TokenType.Identifier →
      t3.type_ = TokenType.LParen →
      parse_method (fuel + 1) ⟨[t1, t2, t3] ++ rest, 0⟩ =
        .error "Expected LBrace, got LParen") ∧
    (∀ (fuel : Nat) (name : String),
      parse_fun (fuel + 2) ⟨funToks name, 0⟩ = .ok (.Fun name [], ⟨funToks name, 6⟩)) := by
  constructor
  · intro fuel t1 t2 t3 rest h1 h2 h3
    simp [parse_method, eat, current_token, h1, h2, h3]
    rfl
  · intro fuel name
    simp [parse_fun, parse_stmts, eat, current_token, funToks]

/-- Witness for C3: the rejection at a concrete method header and the
acceptance of the corresponding fun header. -/
theorem C3_method_rejects_parens_witness :
    parse_method 1 ⟨[⟨TokenType.Method, "method", 1, 0⟩, ⟨TokenType.Identifier, "m", 1, 7⟩,
        ⟨TokenType.LParen, "(", 1, 8⟩], 0⟩ = .error "Expected LBrace, got LParen" ∧
      parse_fun 2 ⟨funToks "m", 0⟩ = .ok (.Fun "m" [], ⟨funToks "m", 6⟩) :=
  ⟨C3_method_rejects_parens.1 0 _ _ _ [] rfl rfl rfl,
   C3_method_rejects_parens.2 0 "m"⟩

/-- The analyzer's symbol table: name → defining node.  The newest
binding is consulted first, modelling HashMap insert-overwrite. -/
abbrev SymTable := List (String × ASTNode)

/-- HashMap::get / contains_key. -/
def lookup : SymTable → String → Option ASTNode
  | [], _ => none
  | (k, v) :: rest, x => if k = x then some v else lookup rest x

/-- HashMap::insert on the global symbol table. -/
def insertST (st : SymTable) (k : String) (v : ASTNode) : SymTable := (k, v) :: st

/-- HashMap::insert on a method's local table. -/
def insertLoc (lt : List (String × Int)) (k : String) (v : Int) : List (String × Int) :=
  (k, v) :: lt

/-- Value of a nonempty ASCII digit string. -/
def digitsVal (l : List Char) : Nat :=
  l.foldl (fun acc d => acc * 10 + (d.toNat - 48)) 0

/-- Rust str::parse::<i32>: optional sign, nonempty digits, and the
value must fit the 32-bit signed range. -/
def parseI32 (s : String) : Option Int :=
  match s.toList with
  | [] => none
  | c :: cs0 =>
    let neg := c = '-'
    let digits := if c = '-' ∨ c = '+' then cs0 else c :: cs0
    if digits = [] then none
    else if ¬(digits.all isAsciiDigit) then none
    else if neg then
      if digitsVal digits ≤ 2147483648 then some (-(digitsVal digits : Int)) else none
    else
      if digitsVal digits ≤ 2147483647 then some ((digitsVal digits : Int)) else none

/-- The side effects a freshly analyzed method-body statement has on
the enclosing method's annotations (the match of src/compile.rs lines
478-489): a Let of a numeric literal parses it as i32 into the local
table, failing on overflow; a Back overwrites the return value. -/
def methodStmtEffect (lt : List (String × Int)) (rv : Option String) :
    ASTNode → Except String (List (String × Int) × Option String)
  | .Let name value =>
    match value with
    | .Number num_val =>
      match parseI32 num_val with
      | none => .error ("Invalid number: " ++ num_val)
      | some n => .ok (insertLoc lt name n, rv)
    | _ => .ok (lt, rv)
  | .Back v => .ok (lt, some v)
  | _ => .ok (lt, rv)

mutual

/-- SemanticAnalyzer::analyze_node (src/compile.rs lines 472-551).
The in-place mutation of the Rust code is modelled by returning the
updated node next to the updated symbol table. -/
def analyzeNode : Nat → SymTable → ASTNode → Except String (ASTNode × SymTable)
  | 0, _, _ => .error "analyzer recursion limit"
  | fuel + 1, st, node =>
    match node with
    | .Method name body lt rv =>
      match analyzeMethodBody fuel st body lt rv with
      | .error e => .error e
      | .ok (body2, lt2, rv2, st2) =>
        .ok (.Method name body2 lt2 rv2, insertST st2 name (.Method name body2 lt2 rv2))
    | .Fun name body =>
      match analyzeSeq fuel st body with
      | .error e => .error e
      | .ok (body2, st2) => .ok (.Fun name body2, st2)
    | .FunctionCall name args =>
      match lookup st name with
      | none => .error ("Undefined function: " ++ name)
      | some entry =>
        match entry with
        | .Method _ _ _ rv =>
          match rv with
          | none => .error ("Function " ++ name ++ " has no return value")
          | some _ =>
            match analyzeSeq fuel st args with
            | .error e => .error e
            | .ok (args2, st2) => .ok (.FunctionCall name args2, st2)
        | _ => .error (name ++ " is not a function")
    | .Assign name value =>
      match analyzeNode fuel st value with
      | .error e => .error e
      | .ok (value2, st1) =>
        match value2 with
        | .Identifier ident_name =>
          if (lookup st1 ident_name).isNone then
            .error ("Undefined variable: " ++ ident_name)
          else .ok (.Assign name value2, insertST st1 name (.Identifier name))
        | _ => .ok (.Assign name value2, insertST st1 name (.Identifier name))
    | .Let name value =>
      match analyzeNode fuel st value with
      | .error e => .error e
      | .ok (value2, st1) => .ok (.Let name value2, insertST st1 name (.Identifier name))
    | .Print value =>
      match analyzeNode fuel st value with
      | .error e => .error e
      | .ok (value2, st1) => .ok (.Print value2, st1)
    | .Back v => .ok (.Back v, st)
    | .Identifier name =>
      if (lookup st name).isNone then .error ("Undefined identifier: " ++ name)
      else .ok (.Identifier name, st)
    | .Number v => .ok (.Number v, st)
    | .String v => .ok (.String v, st)

/-- The statement loops of SemanticAnalyzer::analyze (top level) and of
the Fun branch and argument loop of analyze_node: analyze each node in
order, threading the table. -/
def analyzeSeq : Nat → SymTable → List ASTNode → Except String (List ASTNode × SymTable)
  | 0, _, _ => .error "analyzer recursion limit"
  | _ + 1, st, [] => .ok ([], st)
  | fuel + 1, st, n :: ns =>
    match analyzeNode fuel st n with
    | .error e => .error e
    | .ok (n2, st1) =>
      match analyzeSeq fuel st1 ns with
      | .error e => .error e
      | .ok (ns2, st2) => .ok (n2 :: ns2, st2)

/-- The body loop of the Method branch of analyze_node (lines 475-490):
after analyzing a statement, a Let of a numeric literal feeds the local
table (failing on a literal that does not parse as i32) and a Back
overwrites the return value. -/
def analyzeMethodBody : Nat → SymTable → List ASTNode → List (String × Int) → Option String →
    Except String (List ASTNode × List (String × Int) × Option String × SymTable)
  | 0, _, _, _, _ => .error "analyzer recursion limit"
  | _ + 1, st, [], lt, rv => .ok ([], lt, rv, st)
  | fuel + 1, st, stmt :: rest, lt, rv =>
    match analyzeNode fuel st stmt with
    | .error e => .error e
    | .ok (stmt2, st1) =>
      match methodStmtEffect lt rv stmt2 with
      | .error e => .error e
      | .ok (lt1, rv1) =>
        match analyzeMethodBody fuel st1 rest lt1 rv1 with
        | .error e => .error e
        | .ok (rest2, lt2, rv2, st2) => .ok (stmt2 :: rest2, lt2, rv2, st2)

end

/-- SemanticAnalyzer::analyze: the whole program against a fresh table. -/
def analyze (fuel : Nat) (nodes : List ASTNode) : Except String (List ASTNode × SymTable) :=
  analyzeSeq fuel [] nodes

/-- The return_value annotation of a method node. -/
def returnValueOf : ASTNode → Option String
  | .Method _ _ _ rv => rv
  | _ => none

/-- The payload of a Back statement, none on any other node. -/
def backPayload : ASTNode → Option String
  | .Back v => some v
  | _ => none

/-- Whether a symbol-table entry is a Method node. -/
def isMethodNode : ASTNode → Bool
  | .Method _ _ _ _ => true
  | _ => false

/-- First-preferring choice on optional strings. -/
def optOr : Option String → Option String → Option String
  | some v, _ => some v
  | none, b => b

theorem getLast?_eq_optOr (v : String) (t : List String) :
    (v :: t).getLast? = optOr t.getLast? (some v) := by
  induction t generalizing v with
  | nil => rfl
  | cons a t ih =>
    rw [List.getLast?_cons_cons, ih a]
    cases h : t.getLast? <;> simp [optOr]

/-- Analysis never changes whether a statement is a Back nor its
payload: the node comes back with the same head constructor. -/
theorem analyzeNode_backPayload :
    ∀ (fuel : Nat) (st : SymTable) (nd nd2 : ASTNode) (st2 : SymTable),
      analyzeNode fuel st nd = .ok (nd2, st2) → backPayload nd2 = backPayload nd := by
  intro fuel st nd nd2 st2 h
  cases fuel with
  | zero => simp [analyzeNode] at h
  | succ fuel =>
    cases nd <;> simp only [analyzeNode] at h <;> (repeat' split at h) <;>
      injections <;> subst_vars <;> rfl

/-- The step effect keeps the incoming return value except on a Back,
whose payload overwrites it. -/
theorem methodStmtEffect_rv (stmt2 : ASTNode) (lt : List (String × Int)) (rv : Option String)
    (lt1 : List (String × Int)) (rv1 : Option String)
    (h : methodStmtEffect lt rv stmt2 = .ok (lt1, rv1)) :
    rv1 = optOr (backPayload stmt2) rv := by
  cases stmt2 <;> simp only [methodStmtEffect, backPayload] at h ⊢ <;>
    (repeat' split at h) <;> injections <;> subst_vars <;> simp [optOr]

/-- The return value computed by the method-body loop is the payload of
the LAST Back among the direct children when one exists, and the
incoming value otherwise. -/
theorem analyzeMethodBody_rv :
    ∀ (body : List ASTNode) (fuel : Nat) (st : SymTable) (lt : List (String × Int))
      (rv : Option String) (body2 : List ASTNode) (lt2 : List (String × Int))
      (rv2 : Option String) (st2 : SymTable),
      analyzeMethodBody fuel st body lt rv = .ok (body2, lt2, rv2, st2) →
      rv2 = optOr ((body.filterMap backPayload).getLast?) rv := by
  intro body
  induction body with
  | nil =>
    intro fuel st lt rv body2 lt2 rv2 st2 h
    cases fuel with
    | zero => simp [analyzeMethodBody] at h
    | succ fuel =>
      injection h with h1
      injection h1 with _ h2
      injection h2 with _ h3
      injection h3 with h4 _
      simp [h4.symm, optOr]
  | cons stmt rest ih =>
    intro fuel st lt rv body2 lt2 rv2 st2 h
    cases fuel with
    | zero => simp [analyzeMethodBody] at h
    | succ fuel =>
      simp only [analyzeMethodBody] at h
      split at h <;> rename_i hstmt
      · exact absurd h (by simp)
      · rename_i stmt2 st1
        split at h <;> rename_i hside
        · exact absurd h (by simp)
        · rename_i lt1 rv1
          split at h <;> rename_i hrest
          · exact absurd h (by simp)
          · rename_i rest2 lt2' rv2' st2'
            injection h with h1
            injection h1 with _ h2
            injection h2 with _ h3
            injection h3 with h4 _
            subst h4
            have hpay := analyzeNode_backPayload fuel st stmt stmt2 st1 hstmt
            have hrec := ih fuel st1 lt1 rv1 rest2 lt2' rv2' st2' hrest
            have hrv1 := methodStmtEffect_rv stmt2 lt rv lt1 rv1 hside
            rw [List.filterMap_cons]
            cases hbp : backPayload stmt with
            | none =>
              rw [hbp] at hpay
              rw [hpay] at hrv1
              simp only [optOr] at hrv1
              subst hrv1
              exact hrec
            | some v =>
              rw [hbp] at hpay
              rw [hpay] at hrv1
              simp only [optOr] at hrv1
              subst hrv1
              rw [getLast?_eq_optOr, hrec]
              cases ht : (rest.filterMap backPayload).getLast? <;> simp [optOr]

/-- The method node of the C1 counterexample before analysis. -/
def c1Method : ASTNode := .Method "m" [.Back "1", .Back "2"] [] none

/-- The same node after analysis: the LAST Back has won. -/
def c1Analyzed : ASTNode := .Method "m" [.Back "1", .Back "2"] [] (some "2")

/-- C1 counterexample: analyzing a method body with Back 1 then Back 2
records return_value 2 — the payload of the last Back, not the first. -/
theorem C1_counterexample :
    analyzeNode 5 [] c1Method = .ok (c1Analyzed, [("m", c1Analyzed)]) ∧
      returnValueOf c1Analyzed = some "2" ∧ (some "2" : Option String) ≠ some "1" :=
  ⟨rfl, rfl, by decide⟩

/-- C1 (amended): for every Method whose body holds two or more Back
statements among its direct children, successful analysis sets
return_value to the payload of the LAST Back in the body (top-to-bottom
scan with unconditional overwrite), not the first. -/
theorem C1_last_back_wins :
    ∀ (fuel : Nat) (st : SymTable) (name : String) (body : List ASTNode)
      (nd : ASTNode) (st2 : SymTable),
      analyzeNode fuel st (.Method name body [] none) = .ok (nd, st2) →
      2 ≤ (body.filterMap backPayload).length →
      returnValueOf nd = (body.filterMap backPayload).getLast? := by
  intro fuel st name body nd st2 h hlen
  cases fuel with
  | zero => simp [analyzeNode] at h
  | succ fuel =>
    simp only [analyzeNode] at h
    split at h <;> rename_i hbody
    · exact absurd h (by simp)
    · rename_i body2 lt2 rv2 st3
      injection h with h1
      injection h1 with h2 _
      subst h2
      have := analyzeMethodBody_rv body fuel st [] none body2 lt2 rv2 st3 hbody
      rcases hfm : body.filterMap backPayload with _ | ⟨a, t⟩
      · rw [hfm] at hlen; simp at hlen
      · rw [hfm] at this
        rw [getLast?_eq_optOr] at this
        simp only [returnValueOf]
        rw [getLast?_eq_optOr]
        cases ht : t.getLast? <;> simp_all [optOr]

/-- Witness for C1: the amended statement applied to the two-Back method. -/
theorem C1_last_back_wins_witness :
    returnValueOf c1Analyzed =
      ([ASTNode.Back "1", ASTNode.Back "2"].filterMap backPayload).getLast? :=
  C1_last_back_wins 5 [] "m" [.Back "1", .Back "2"] c1Analyzed [("m", c1Analyzed)]
    rfl (by decide)

mutual

/-- Names that analysis of a node can newly bind in the global symbol
table: method names and Let/Assign targets anywhere in the node.  A
Fun's own name is NOT among them — the Fun branch registers nothing. -/
def declaresName (x : String) : ASTNode → Bool
  | .Method n body _ _ => n == x || declaresList x body
  | .Fun _ body => declaresList x body
  | .Let n v => n == x || declaresName x v
  | .Assign n v => n == x || declaresName x v
  | .Print v => declaresName x v
  | .FunctionCall _ args => declaresList x args
  | _ => false

def declaresList (x : String) : List ASTNode → Bool
  | [] => false
  | n :: ns => declaresName x n || declaresList x ns

end

/-- Analysis only ever adds bindings for names the analyzed tree
declares; looking up any other name is unchanged. -/
theorem analyze_lookup_preserve :
    ∀ fuel : Nat,
      (∀ st nd nd2 st2 x, analyzeNode fuel st nd = .ok (nd2, st2) →
        declaresName x nd = false → lookup st2 x = lookup st x) ∧
      (∀ st l l2 st2 x, analyzeSeq fuel st l = .ok (l2, st2) →
        declaresList x l = false → lookup st2 x = lookup st x) ∧
      (∀ st body lt rv body2 lt2 rv2 st2 x,
        analyzeMethodBody fuel st body lt rv = .ok (body2, lt2, rv2, st2) →
        declaresList x body = false → lookup st2 x = lookup st x) := by
  intro fuel
  induction fuel with
  | zero =>
    refine ⟨?_, ?_, ?_⟩
    · intro st nd nd2 st2 x h
      simp [analyzeNode] at h
    · intro st l l2 st2 x h
      simp [analyzeSeq] at h
    · intro st body lt rv body2 lt2 rv2 st2 x h
      simp [analyzeMethodBody] at h
  | succ fuel ih =>
    obtain ⟨ih1, ih2, ih3⟩ := ih
    refine ⟨?_, ?_, ?_⟩
    · intro st nd nd2 st2 x h hdecl
      cases nd with
      | Method name body lt rv =>
        simp only [declaresName, Bool.or_eq_false_iff, beq_eq_false_iff_ne] at hdecl
        simp only [analyzeNode] at h
        split at h <;> rename_i hbody
        · exact absurd h (by simp)
        · rename_i body2 lt2 rv2 st3
          injection h with h1
          injection h1 with _ h2
          subst h2
          show lookup (insertST st3 name _) x = lookup st x
          simp only [insertST, lookup, if_neg hdecl.1]
          exact ih3 st body lt rv body2 lt2 rv2 st3 x hbody hdecl.2
      | Fun name body =>
        simp only [declaresName] at hdecl
        simp only [analyzeNode] at h
        split at h <;> rename_i hbody
        · exact absurd h (by simp)
        · rename_i body2 st3
          injection h with h1
          injection h1 with _ h2
          subst h2
          exact ih2 st body body2 st3 x hbody hdecl
      | FunctionCall name args =>
        simp only [declaresName] at hdecl
        simp only [analyzeNode] at h
        split at h
        · exact absurd h (by simp)
        · split at h
          · split at h
            · exact absurd h (by simp)
            · split at h <;> rename_i harg
              · exact absurd h (by simp)
              · rename_i args2 st3
                injection h with h1
                injection h1 with _ h2
                subst h2
                exact ih2 st args args2 st3 x harg hdecl
          · exact absurd h (by simp)
      | Assign name value =>
        simp only [declaresName, Bool.or_eq_false_iff, beq_eq_false_iff_ne] at hdecl
        simp only [analyzeNode] at h
        split at h <;> rename_i hval
        · exact absurd h (by simp)
        · rename_i value2 st1
          have hst1 := ih1 st value value2 st1 x hval hdecl.2
          split at h
          · split at h
            · exact absurd h (by simp)
            · injection h with h1
              injection h1 with _ h2
              subst h2
              simp only [insertST, lookup, if_neg hdecl.1]
              exact hst1
          · injection h with h1
            injection h1 with _ h2
            subst h2
            simp only [insertST, lookup, if_neg hdecl.1]
            exact hst1
      | Let name value =>
        simp only [declaresName, Bool.or_eq_false_iff, beq_eq_false_iff_ne] at hdecl
        simp only [analyzeNode] at h
        split at h <;> rename_i hval
        · exact absurd h (by simp)
        · rename_i value2 st1
          injection h with h1
          injection h1 with _ h2
          subst h2
          simp only [insertST, lookup, if_neg hdecl.1]
          exact ih1 st value value2 st1 x hval hdecl.2
      | Print value =>
        simp only [declaresName] at hdecl
        simp only [analyzeNode] at h
        split at h <;> rename_i hval
        · exact absurd h (by simp)
        · rename_i value2 st1
          injection h with h1
          injection h1 with _ h2
          subst h2
          exact ih1 st value value2 st1 x hval hdecl
      | Back v =>
        simp only [analyzeNode] at h
        injection h with h1
        injection h1 with _ h2
        subst h2
        rfl
      | Identifier name =>
        simp only [analyzeNode] at h
        split at h
        · exact absurd h (by simp)
        · injection h with h1
          injection h1 with _ h2
          subst h2
          rfl
      | Number v =>
        simp only [analyzeNode] at h
        injection h with h1
        injection h1 with _ h2
        subst h2
        rfl
      | String v =>
        simp only [analyzeNode] at h
        injection h with h1
        injection h1 with _ h2
        subst h2
        rfl
    · intro st l l2 st2 x h hdecl
      cases l with
      | nil =>
        injection h with h1
        injection h1 with _ h2
        subst h2
        rfl
      | cons n ns =>
        simp only [declaresList, Bool.or_eq_false_iff] at hdecl
        simp only [analyzeSeq] at h
        split at h <;> rename_i hn
        · exact absurd h (by simp)
        · rename_i n2 st1
          split at h <;> rename_i hns
          · exact absurd h (by simp)
          · rename_i ns2 st3
            injection h with h1
            injection h1 with _ h2
            subst h2
            rw [ih2 st1 ns ns2 st3 x hns hdecl.2]
            exact ih1 st n n2 st1 x hn hdecl.1
    · intro st body lt rv body2 lt2 rv2 st2 x h hdecl
      cases body with
      | nil =>
        injection h with h1
        injection h1 with _ h2
        injection h2 with _ h3
        injection h3 with _ h4
        subst h4
        rfl
      | cons stmt rest =>
        simp only [declaresList, Bool.or_eq_false_iff] at hdecl
        simp only [analyzeMethodBody] at h
        split at h <;> rename_i hstmt
        · exact absurd h (by simp)
        · rename_i stmt2 st1
          split at h <;> rename_i hside
          · exact absurd h (by simp)
          · rename_i lt1 rv1
            split at h <;> rename_i hrest
            · exact absurd h (by simp)
            · rename_i rest2 lt2' rv2' st2'
              injection h with h1
              injection h1 with _ h2
              injection h2 with _ h3
              injection h3 with _ h4
              subst h4
              rw [ih3 st1 rest lt1 rv1 rest2 lt2' rv2' st2' x hrest hdecl.2]
              exact ih1 st stmt stmt2 st1 x hstmt hdecl.1

/-- C5: analysis of a FunctionCall — undefined-function error exactly
when the name is absent; not-callable error when the entry is not a
Method; no-return-value error when it is a Method with empty
return_value; otherwise the result is that of analyzing the arguments.
And a name declared only by a Fun is never registered, so calling it is
rejected as undefined. -/
theorem C5_function_call_analysis :
    (∀ (fuel : Nat) (st : SymTable) (name : String) (args : List ASTNode),
      lookup st name = none →
      analyzeNode (fuel + 1) st (.FunctionCall name args) =
        .error ("Undefined function: " ++ name)) ∧
    (∀ (fuel : Nat) (st : SymTable) (name : String) (args : List ASTNode) (e : ASTNode),
      lookup st name = some e → isMethodNode e = false →
      analyzeNode (fuel + 1) st (.FunctionCall name args) =
        .error (name ++ " is not a function")) ∧
    (∀ (fuel : Nat) (st : SymTable) (name : String) (args : List ASTNode)
      (mn : String) (mb : List ASTNode) (ml : List (String × Int)),
      lookup st name = some (.Method mn mb ml none) →
      analyzeNode (fuel + 1) st (.FunctionCall name args) =
        .error ("Function " ++ name ++ " has no return value")) ∧
    (∀ (fuel : Nat) (st : SymTable) (name : String) (args : List ASTNode)
      (mn : String) (mb : List ASTNode) (ml : List (String × Int)) (rv : String),
      lookup st name = some (.Method mn mb ml (some rv)) →
      analyzeNode (fuel + 1) st (.FunctionCall name args) =
        (match analyzeSeq fuel st args with
         | .error e => .error e
         | .ok (args2, st2) => .ok (.FunctionCall name args2, st2))) ∧
    (∀ (fuel g : Nat) (st : SymTable) (f : String) (body args : List ASTNode)
      (nd : ASTNode) (st2 : SymTable),
      lookup st f = none →
      declaresName f (.Fun f body) = false →
      analyzeNode fuel st (.Fun f body) = .ok (nd, st2) →
      analyzeNode (g + 1) st2 (.FunctionCall f args) =
        .error ("Undefined function: " ++ f)) := by
  refine ⟨?_, ?_, ?_, ?_, ?_⟩
  · intro fuel st name args h
    simp only [analyzeNode, h]
  · intro fuel st name args e h hm
    simp only [analyzeNode, h]
    cases e <;> simp_all [isMethodNode]
  · intro fuel st name args mn mb ml h
    simp only [analyzeNode, h]
  · intro fuel st name args mn mb ml rv h
    simp only [analyzeNode, h]
  · intro fuel g st f body args nd st2 hf hdecl hfun
    have hpres := (analyze_lookup_preserve fuel).1 st (.Fun f body) nd st2 f hfun hdecl
    simp only [analyzeNode, hpres, hf]

/-- Witness for C5: all five branches at concrete tables and calls. -/
theorem C5_function_call_analysis_witness :
    analyzeNode 1 [] (.FunctionCall "f" []) = .error "Undefined function: f" ∧
      analyzeNode 1 [("g", .Identifier "g")] (.FunctionCall "g" []) =
        .error "g is not a function" ∧
      analyzeNode 1 [("h", .Method "h" [] [] none)] (.FunctionCall "h" []) =
        .error "Function h has no return value" ∧
      analyzeNode 2 [("k", .Method "k" [] [] (some "1"))] (.FunctionCall "k" []) =
        .ok (.FunctionCall "k" [], [("k", .Method "k" [] [] (some "1"))]) ∧
      analyzeNode 1 [] (.FunctionCall "q" []) = .error "Undefined function: q" :=
  ⟨C5_function_call_analysis.1 0 [] "f" [] rfl,
   C5_function_call_analysis.2.1 0 [("g", .Identifier "g")] "g" [] (.Identifier "g") rfl rfl,
   C5_function_call_analysis.2.2.1 0 [("h", .Method "h" [] [] none)] "h" [] "h" [] [] rfl,
   (C5_function_call_analysis.2.2.2.1 1 [("k", .Method "k" [] [] (some "1"))] "k" []
      "k" [] [] "1" rfl).trans rfl,
   C5_function_call_analysis.2.2.2.2 2 0 [] "q" [] [] (.Fun "q" []) []
     rfl (by simp [declaresName, declaresList]) rfl⟩

/-- On a nonempty all-digit string, i32 parsing succeeds exactly when
the value fits below 2^31. -/
theorem parseI32_digits (v : String) (hne : v.toList ≠ [])
    (hd : ∀ c ∈ v.toList, isAsciiDigit c = true) :
    parseI32 v = if digitsVal v.toList ≤ 2147483647
      then some ((digitsVal v.toList : Int)) else none := by
  rcases hv : v.toList with _ | ⟨c, cs⟩
  · exact absurd hv hne
  · have hc : isAsciiDigit c = true := by
      refine hd c ?_
      rw [hv]
      exact List.mem_cons_self c cs
    have hcm : c ≠ '-' := by
      intro hh; rw [hh] at hc; exact absurd hc (by decide)
    have hcp : c ≠ '+' := by
      intro hh; rw [hh] at hc; exact absurd hc (by decide)
    have hall : (c :: cs).all isAsciiDigit = true := by
      rw [← hv]
      exact List.all_eq_true.mpr hd
    simp only [parseI32, hv]
    rw [if_neg (show ¬(c = '-' ∨ c = '+') by simp [hcm, hcp]),
      if_neg (show ¬(c :: cs = []) by simp),
      if_neg (show ¬¬((c :: cs).all isAsciiDigit = true) by simp [hall]),
      if_neg hcm]

/-- Analyzing a Let of a numeric literal gives the node back unchanged:
the analyzer only touches the symbol table. -/
theorem analyzeNode_let_number (fuel : Nat) (st : SymTable) (x v : String)
    (nd : ASTNode) (st1 : SymTable)
    (h : analyzeNode fuel st (.Let x (.Number v)) = .ok (nd, st1)) :
    nd = .Let x (.Number v) := by
  cases fuel with
  | zero => simp [analyzeNode] at h
  | succ fuel =>
    cases fuel with
    | zero => simp [analyzeNode] at h
    | succ fuel =>
      injection h with h1
      injection h1 with h2 _
      exact h2.symm

/-- A Let of an overflowing numeric literal anywhere among the direct
statements makes the method-body pass fail. -/
theorem analyzeMethodBody_overflow (x v : String)
    (hp : parseI32 v = none) :
    ∀ (body : List ASTNode) (fuel : Nat) (st : SymTable) (lt : List (String × Int))
      (rv : Option String) (r : List ASTNode × List (String × Int) × Option String × SymTable),
      (ASTNode.Let x (.Number v)) ∈ body →
      analyzeMethodBody fuel st body lt rv ≠ .ok r := by
  intro body
  induction body with
  | nil => intro fuel st lt rv r hmem; exact absurd hmem (by simp)
  | cons stmt rest ih =>
    intro fuel st lt rv r hmem hok
    cases fuel with
    | zero => simp [analyzeMethodBody] at hok
    | succ fuel =>
      simp only [analyzeMethodBody] at hok
      rcases List.mem_cons.mp hmem with heq | hmem2
      · subst heq
        split at hok <;> rename_i hstmt
        · exact absurd hok (by simp)
        · rename_i stmt2 st1
          have := analyzeNode_let_number fuel st x v stmt2 st1 hstmt
          subst this
          rw [show methodStmtEffect lt rv (.Let x (.Number v)) =
              .error ("Invalid number: " ++ v) by
            simp only [methodStmtEffect, hp]] at hok
          exact absurd hok (by simp)
      · split at hok <;> rename_i hstmt
        · exact absurd hok (by simp)
        · rename_i stmt2 st1
          split at hok <;> rename_i hside
          · exact absurd hok (by simp)
          · rename_i lt1 rv1
            split at hok <;> rename_i hrest
            · exact absurd hok (by simp)
            · exact ih fuel st1 lt1 rv1 _ hmem2 hrest

/-- C10: inside a method body, a Let of a numeric literal records
(name → parsed value) in the method's local table when the digits fit
in a 32-bit signed integer, and otherwise fails the whole analysis with
the invalid-number error, even though the AST keeps the literal as
text. -/
theorem C10_let_number_i32 :
    (∀ (fuel : Nat) (st : SymTable) (m x v : String),
      v.toList ≠ [] → (∀ c ∈ v.toList, isAsciiDigit c = true) →
      digitsVal v.toList ≤ 2147483647 →
      analyzeNode (fuel + 5) st (.Method m [.Let x (.Number v)] [] none) =
        .ok (.Method m [.Let x (.Number v)] [(x, (digitsVal v.toList : Int))] none,
          insertST (insertST st x (.Identifier x)) m
            (.Method m [.Let x (.Number v)] [(x, (digitsVal v.toList : Int))] none))) ∧
    (∀ (fuel : Nat) (st : SymTable) (m x v : String) (rest : List ASTNode),
      v.toList ≠ [] → (∀ c ∈ v.toList, isAsciiDigit c = true) →
      2147483647 < digitsVal v.toList →
      analyzeNode (fuel + 5) st (.Method m ((.Let x (.Number v)) :: rest) [] none) =
        .error ("Invalid number: " ++ v)) ∧
    (∀ (fuel : Nat) (st : SymTable) (m x v : String) (body : List ASTNode)
      (out : ASTNode × SymTable),
      v.toList ≠ [] → (∀ c ∈ v.toList, isAsciiDigit c = true) →
      2147483647 < digitsVal v.toList →
      (ASTNode.Let x (.Number v)) ∈ body →
      analyzeNode fuel st (.Method m body [] none) ≠ .ok out) := by
  refine ⟨?_, ?_, ?_⟩
  · intro fuel st m x v h1 h2 h3
    have hp := parseI32_digits v h1 h2
    rw [if_pos h3] at hp
    simp only [analyzeNode, analyzeMethodBody, methodStmtEffect, hp, insertST, insertLoc]
  · intro fuel st m x v rest h1 h2 h3
    have hp := parseI32_digits v h1 h2
    rw [if_neg (by omega)] at hp
    simp only [analyzeNode, analyzeMethodBody, methodStmtEffect, hp, insertST]
  · intro fuel st m x v body out h1 h2 h3 hmem hok
    have hp := parseI32_digits v h1 h2
    rw [if_neg (by omega)] at hp
    cases fuel with
    | zero => simp [analyzeNode] at hok
    | succ fuel =>
      simp only [analyzeNode] at hok
      split at hok <;> rename_i hbody
      · exact absurd hok (by simp)
      · exact analyzeMethodBody_overflow x v hp body fuel st [] none _ hmem hbody

/-- Witness for C10: the literal 5 is recorded as the integer 5; the
literal 2147483648 (one past i32::MAX) aborts analysis. -/
theorem C10_let_number_i32_witness :
    analyzeNode 5 [] (.Method "m" [.Let "x" (.Number "5")] [] none) =
      .ok (.Method "m" [.Let "x" (.Number "5")] [("x", (5 : Int))] none,
        [("m", .Method "m" [.Let "x" (.Number "5")] [("x", (5 : Int))] none),
         ("x", .Identifier "x")]) ∧
    analyzeNode 5 [] (.Method "m" [.Let "x" (.Number "2147483648")] [] none) =
      .error "Invalid number: 2147483648" :=
  ⟨C10_let_number_i32.1 0 [] "m" "x" "5" (by decide) (by decide) (by decide),
   C10_let_number_i32.2.1 0 [] "m" "x" "2147483648" [] (by decide) (by decide) (by decide)⟩

/-- Whether a node is a Back statement: the shallow matches! scan of
generate_node_code's Method branch (direct children only). -/
def isBack : ASTNode → Bool
  | .Back _ => true
  | _ => false

mutual

/-- generate_node_code (src/compile.rs lines 575-637).  Literal braces
of the emitted text are written with hex escapes. -/
def generate_node_code : ASTNode → Except String String
  | .Let name value =>
    match generate_node_code value with
    | .error e => .error e
    | .ok v => .ok ("let " ++ name ++ " = " ++ v ++ ";")
  | .Print value =>
    match generate_node_code value with
    | .error e => .error e
    | .ok expr =>
      match value with
      | .String _ => .ok ("print!(" ++ expr ++ ");")
      | _ => .ok ("print!(\"\x7b\x7d\", " ++ expr ++ ");")
  | .Method name body _ _ =>
    match genBodyLines body with
    | .error e => .error e
    | .ok bodyStr =>
      .ok ("fn " ++ name ++ "() -> i32 \x7b\n" ++ bodyStr ++
        (if body.any isBack then "" else "    return 0;\n") ++ "\x7d")
  | .Fun name body =>
    match genBodyLines body with
    | .error e => .error e
    | .ok bodyStr => .ok ("fn " ++ name ++ "() \x7b\n" ++ bodyStr ++ "\x7d")
  | .Back value => .ok ("return " ++ value ++ ";")
  | .FunctionCall name args =>
    match genArgs args with
    | .error e => .error e
    | .ok args_code => .ok (name ++ "(" ++ String.intercalate ", " args_code ++ ")")
  | .Identifier name => .ok name
  | .Number value => .ok value
  | .String value => .ok value
  | .Assign name value =>
    match generate_node_code value with
    | .error e => .error e
    | .ok v => .ok (name ++ " = " ++ v ++ ";")

/-- The body-rendering loop of the Method and Fun branches: each
statement indented four spaces and newline-terminated, in order. -/
def genBodyLines : List ASTNode → Except String String
  | [] => .ok ""
  | stmt :: rest =>
    match generate_node_code stmt with
    | .error e => .error e
    | .ok stmt_code =>
      match genBodyLines rest with
      | .error e => .error e
      | .ok restStr => .ok ("    " ++ stmt_code ++ "\n" ++ restStr)

/-- The argument-rendering collect of the FunctionCall branch. -/
def genArgs : List ASTNode → Except String (List String)
  | [] => .ok []
  | arg :: rest =>
    match generate_node_code arg with
    | .error e => .error e
    | .ok code =>
      match genArgs rest with
      | .error e => .error e
      | .ok codes => .ok (code :: codes)

end

/-- Whether a top-level Fun named main occurs: the has_main flag set
inside the loop of generate_code. -/
def hasMainFun : List ASTNode → Bool
  | [] => false
  | .Fun name _ :: rest => name == "main" || hasMainFun rest
  | _ :: rest => hasMainFun rest

/-- The node loop of generate_code: each top-level rendering followed
by a newline. -/
def genProgram : List ASTNode → Except String String
  | [] => .ok ""
  | node :: rest =>
    match generate_node_code node with
    | .error e => .error e
    | .ok code =>
      match genProgram rest with
      | .error e => .error e
      | .ok restStr => .ok (code ++ "\n" ++ restStr)

/-- generate_code (src/compile.rs lines 554-573): render every node,
then append an empty entry point unless a top-level fun main exists. -/
def generate_code (nodes : List ASTNode) : Except String String :=
  match genProgram nodes with
  | .error e => .error e
  | .ok code =>
    .ok (if hasMainFun nodes then code else code ++ "\nfn main() \x7b\n\x7d\n")

theorem ASTNode_sizeOf_pos (n : ASTNode) : 0 < sizeOf n := by
  cases n <;> simp_arith

/-- Joint totality of the three rendering functions, by strong
induction on size. -/
theorem gen_ok_aux :
    ∀ k : Nat,
      (∀ n : ASTNode, sizeOf n ≤ k → ∃ s, generate_node_code n = .ok s) ∧
      (∀ l : List ASTNode, sizeOf l ≤ k →
        (∃ s, genBodyLines l = .ok s) ∧ (∃ a, genArgs l = .ok a)) := by
  intro k
  induction k with
  | zero =>
    constructor
    · intro n h
      exact absurd h (by have := ASTNode_sizeOf_pos n; omega)
    · intro l h
      cases l <;> simp_arith at h
  | succ k ih =>
    obtain ⟨ihn, ihl⟩ := ih
    constructor
    · intro n hn
      cases n with
      | Let name value =>
        have hv : sizeOf value ≤ k := by simp_arith at hn; omega
        obtain ⟨s, hs⟩ := ihn value hv
        have hstep : generate_node_code (.Let name value) =
            .ok ("let " ++ name ++ " = " ++ s ++ ";") := by
          simp only [generate_node_code, hs]
        exact ⟨_, hstep⟩
      | Print value =>
        have hv : sizeOf value ≤ k := by simp_arith at hn; omega
        obtain ⟨s, hs⟩ := ihn value hv
        simp only [generate_node_code, hs]
        cases value <;> exact ⟨_, rfl⟩
      | Method name body lt rv =>
        have hb : sizeOf body ≤ k := by simp_arith at hn; omega
        obtain ⟨s, hs⟩ := (ihl body hb).1
        have hstep : generate_node_code (.Method name body lt rv) =
            .ok ("fn " ++ name ++ "() -> i32 \x7b\n" ++ s ++
              (if body.any isBack then "" else "    return 0;\n") ++ "\x7d") := by
          simp only [generate_node_code, hs]
        exact ⟨_, hstep⟩
      | Fun name body =>
        have hb : sizeOf body ≤ k := by simp_arith at hn; omega
        obtain ⟨s, hs⟩ := (ihl body hb).1
        have hstep : generate_node_code (.Fun name body) =
            .ok ("fn " ++ name ++ "() \x7b\n" ++ s ++ "\x7d") := by
          simp only [generate_node_code, hs]
        exact ⟨_, hstep⟩
      | Back v => exact ⟨_, show _ = .ok ("return " ++ v ++ ";") by
          simp only [generate_node_code]⟩
      | FunctionCall name args =>
        have hb : sizeOf args ≤ k := by simp_arith at hn; omega
        obtain ⟨a, ha⟩ := (ihl args hb).2
        have hstep : generate_node_code (.FunctionCall name args) =
            .ok (name ++ "(" ++ String.intercalate ", " a ++ ")") := by
          simp only [generate_node_code, ha]
        exact ⟨_, hstep⟩
      | Identifier name => exact ⟨name, by simp only [generate_node_code]⟩
      | Number v => exact ⟨v, by simp only [generate_node_code]⟩
      | String v => exact ⟨v, by simp only [generate_node_code]⟩
      | Assign name value =>
        have hv : sizeOf value ≤ k := by simp_arith at hn; omega
        obtain ⟨s, hs⟩ := ihn value hv
        have hstep : generate_node_code (.Assign name value) =
            .ok (name ++ " = " ++ s ++ ";") := by
          simp only [generate_node_code, hs]
        exact ⟨_, hstep⟩
    · intro l hl
      cases l with
      | nil =>
        exact ⟨⟨"", by simp only [genBodyLines]⟩, ⟨[], by simp only [genArgs]⟩⟩
      | cons a rest =>
        have ha : sizeOf a ≤ k := by simp_arith at hl; omega
        have hr : sizeOf rest ≤ k := by simp_arith at hl; omega
        obtain ⟨s, hs⟩ := ihn a ha
        obtain ⟨⟨bs, hbs⟩, ⟨codes, hcodes⟩⟩ := ihl rest hr
        refine ⟨⟨"    " ++ s ++ "\n" ++ bs, ?_⟩, ⟨s :: codes, ?_⟩⟩
        · simp only [genBodyLines, hs, hbs]
        · simp only [genArgs, hs, hcodes]

/-- Rendering a single node always succeeds. -/
theorem gen_node_total (n : ASTNode) : ∃ s, generate_node_code n = .ok s :=
  (gen_ok_aux (sizeOf n)).1 n (Nat.le_refl _)

/-- C7: rendering a Method appends the synthesized zero-return exactly
when no Back occurs among the DIRECT children of the body — the scan is
isBack on each child node itself, so Backs nested inside child blocks
do not suppress it. -/
theorem C7_method_default_return :
    ∀ (name : String) (body : List ASTNode) (lt : List (String × Int)) (rv : Option String),
      ∃ bodyStr, genBodyLines body = .ok bodyStr ∧
        generate_node_code (.Method name body lt rv) =
          .ok ("fn " ++ name ++ "() -> i32 \x7b\n" ++ bodyStr ++
            (if body.any isBack then "" else "    return 0;\n") ++ "\x7d") := by
  intro name body lt rv
  obtain ⟨bodyStr, hbs⟩ := ((gen_ok_aux (sizeOf body)).2 body (Nat.le_refl _)).1
  exact ⟨bodyStr, hbs, by simp only [generate_node_code, hbs]⟩

/-- C9: code generation is total — for every node sequence, analyzed or
not, generate_code returns a rendering and the error branch is dead. -/
theorem C9_generate_code_total :
    ∀ nodes : List ASTNode, ∃ s, generate_code nodes = .ok s := by
  intro nodes
  have hprog : ∃ s, genProgram nodes = .ok s := by
    induction nodes with
    | nil => exact ⟨"", by simp only [genProgram]⟩
    | cons n rest ih =>
      obtain ⟨s1, h1⟩ := gen_node_total n
      obtain ⟨s2, h2⟩ := ih
      exact ⟨s1 ++ "\n" ++ s2, by simp only [genProgram, h1, h2]⟩
  obtain ⟨s, hs⟩ := hprog
  exact ⟨if hasMainFun nodes then s else s ++ "\nfn main() \x7b\n\x7d\n",
    by simp only [generate_code, hs]⟩

end Ntfp
